import Mathlib

/-!
# gcloud: gin server helpers and validation-error translator

A shallow embedding of three Go source files

* `utils/validator/mthValidator.go` (`InitTrans`, `addValueToMap`, `removeTopStruct`,
  `ErrResp`, `handleErrMap`, `unionPrefix`),
* `plugins/server/http/gin/utils/utils.go` (`CheckParamsWithErrorMsg`,
  `CheckQueryParams`, `QueryArray`, `PostFormArray`, ...),
* `plugins/server/http/gin/gin_server.go` (`bodyLogWriter`, `loggingMiddleware`),

followed by theorems about them.

Conventions of the embedding:

* a Go `string` is the list of its bytes (`len` is `List.length`, `s[:k]` is `List.take k`);
* a Go `map[string]V` is an association list with distinct keys; assignment `m[k] = v`
  overwrites in place or appends, and `range` visits the entries in list order.  Go leaves
  the iteration order unspecified, so an association list stands for a map together with
  one admissible iteration order;
* a Go `interface{}` holding either a string or a nested `map[string]interface{}` is `Val`;
* a function that can panic returns `Except Fault _`.
-/

set_option linter.unusedVariables false

namespace Gcloud

/-! ## Go strings and the `strings` functions the sources call -/

abbrev Byte := UInt8

abbrev GoString := List Byte

/-- Bytes of an ASCII literal; used to write string constants readably. -/
def ascii (s : String) : GoString := s.toList.map (fun c => c.toNat.toUInt8)

/-- The byte `.` -/
def dot : Byte := 46

/-- The byte `,` -/
def comma : Byte := 44

/-- The byte `\n` -/
def newline : Byte := 10

/-- Go `strings.SplitN(s, sep, 2)` for a one-byte separator `sep`: `[s]` when `sep` does
not occur in `s`, otherwise the text before the first `sep` and the text after it. -/
def SplitN2 (sep : Byte) : GoString → List GoString
  | [] => [[]]
  | c :: cs =>
    if c = sep then [[], cs]
    else
      match SplitN2 sep cs with
      | h :: t => (c :: h) :: t
      | [] => [[c]]

/-- Go `strings.Split(s, sep)` for a one-byte separator `sep`: all the pieces of `s`
between occurrences of `sep`; `Split("", sep)` is the one-element slice `[""]`. -/
def Split (sep : Byte) : GoString → List GoString
  | [] => [[]]
  | c :: cs =>
    if c = sep then [] :: Split sep cs
    else
      match Split sep cs with
      | h :: t => (c :: h) :: t
      | [] => [[c]]

/-- Go `strings.Join(parts, sep)` for a one-byte separator. -/
def Join (sep : Byte) : List GoString → GoString
  | [] => []
  | [p] => p
  | p :: q :: ps => p ++ sep :: Join sep (q :: ps)

/-- Go `strings.Trim(s, cutset)` for a one-byte cutset: all leading and all trailing
occurrences of the byte are removed. -/
def Trim (s : GoString) (c : Byte) : GoString :=
  (s.rdropWhile (fun b => b == c)).dropWhile (fun b => b == c)

/-! ## Go maps and interface values -/

/-- Map read `m[k]` with the comma-ok result folded into an `Option`. -/
def mapLookup {V : Type} : List (GoString × V) → GoString → Option V
  | [], _ => none
  | (k', v') :: rest, k => if k' = k then some v' else mapLookup rest k

/-- Map assignment `m[k] = v`. -/
def mapAssign {V : Type} : List (GoString × V) → GoString → V → List (GoString × V)
  | [], k, v => [(k, v)]
  | (k', v') :: rest, k, v =>
    if k' = k then (k, v) :: rest else (k', v') :: mapAssign rest k v

/-- The values stored in the `map[string]interface{}` built by `addValueToMap`: a
string or a nested map. -/
inductive Val where
  | str (s : GoString)
  | map (m : List (GoString × Val))

/-- Runtime panics of the embedded code.  `outOfFuel` is not a Go panic: it is the
result of the fuel-bounded recursion when the bound is too small (shown never to be
returned by `addValueToMap`). -/
inductive Fault where
  | indexOutOfRange
  | sliceBounds
  | typeAssertion
  | nilDereference
  | outOfFuel
  deriving DecidableEq, Repr

deriving instance DecidableEq for Except

/-! ## `utils/validator/mthValidator.go`: the error-message reducer -/

/-- A field error of the validation engine: its namespace (`Struct.Field.Sub...`), field
name, failed tag and tag parameter. -/
structure FieldError where
  ns : GoString
  field : GoString
  tag : GoString
  param : GoString
  deriving DecidableEq, Repr

/-- A value of Go type `error` as `ErrResp` sees it: the nil interface, a
`validator.ValidationErrors` slice, or a value of any other dynamic type, represented by
the text its `Error()` method returns. -/
inductive ErrorValue where
  | nil
  | validationErrors (errs : List FieldError)
  | other (msg : GoString)

/-- Library method `ValidationErrors.Translate(trans)`: the map from each error's namespace
to its translated message.  `translate fe` stands for `fe.Translate(trans)` with the
package-level translator. -/
def Translate (translate : FieldError → GoString) (ve : List FieldError) :
    List (GoString × GoString) :=
  ve.foldl (fun m fe => mapAssign m fe.ns (translate fe)) []

/-- Source `addValueToMap`, with the recursion depth bounded by `fuel`. -/
def addValueToMapFuel : Nat → List (GoString × GoString) →
    Except Fault (List (GoString × Val))
  | 0, _ => .error .outOfFuel
  | fuel + 1, fields =>
    fields.foldlM (fun res (fe : GoString × GoString) =>
      match SplitN2 dot fe.1 with
      | f0 :: f1 :: _ =>
        match addValueToMapFuel fuel [(f1, fe.2)] with
        | .error x => .error x
        | .ok returnMap =>
          match mapLookup res f0 with
          | some (.map inner) =>
            .ok (mapAssign res f0
              (.map (returnMap.foldl (fun acc kv => mapAssign acc kv.1 kv.2) inner)))
          | some (.str _) => .error .typeAssertion
          | none => .ok (mapAssign res f0 (.map returnMap))
      | _ => .ok (mapAssign res fe.1 (.str fe.2))) []

/-- Source `addValueToMap`: every recursive call is on a strictly shorter key, so the
total key length plus one bounds the depth. -/
def addValueToMap (fields : List (GoString × GoString)) :
    Except Fault (List (GoString × Val)) :=
  addValueToMapFuel ((fields.map (fun kv => kv.1.length)).sum + 1) fields

/-- Source `removeTopStruct`: `fieldArr[1]` panics when the key has no dot. -/
def removeTopStruct (fields : List (GoString × GoString)) :
    Except Fault (List (GoString × Val)) :=
  match fields.foldlM (fun lowerMap (fe : GoString × GoString) =>
      match (SplitN2 dot fe.1)[1]? with
      | some f1 => Except.ok (mapAssign lowerMap f1 fe.2)
      | none => Except.error Fault.indexOutOfRange) [] with
  | .error x => .error x
  | .ok lowerMap => addValueToMap lowerMap

/-- Source `unionPrefix`. -/
def unionPrefix (pre : GoString) (v : GoString) : GoString :=
  if pre ≠ [] then pre ++ dot :: v else v

/-- The text `fmt.Sprintf("%v", m)` prints for an empty (or nil) map. -/
def emptyMapText : GoString := ascii "map[]"

/-- Source `handleErrMap`.  The loop returns in its first iteration, so only the first
entry of a non-empty map is looked at; for a leaf the value is joined to the running
prefix (the leaf's own key is not).  An empty map falls through to the last line, a
non-map argument to the `else` branch, where the shadowing `v` is the nil map. -/
def handleErrMap (keyPrefix : GoString) : Val → GoString
  | .map ((key, .map v) :: _) => handleErrMap (unionPrefix keyPrefix key) (.map v)
  | .map ((_, .str value) :: _) => unionPrefix keyPrefix value
  | .map [] => unionPrefix keyPrefix emptyMapText
  | .str _ => unionPrefix keyPrefix emptyMapText

/-- Source `ErrResp`.  The slice `errs` is a list whose capacity equals its length, so
`errs[0:1]` panics on the empty set.  The `fmt.Println` of the dynamic type is output
only and is left out. -/
def ErrResp (translate : FieldError → GoString) (err : ErrorValue) :
    Except Fault GoString :=
  match err with
  | .nil => .error .nilDereference
  | .other msg => .ok msg
  | .validationErrors errs =>
    if 1 ≤ errs.length then
      match removeTopStruct (Translate translate (errs.take 1)) with
      | .error x => .error x
      | .ok errMap =>
        if errMap.length > 0 then .ok (handleErrMap [] (.map errMap)) else .ok []
    else .error .sliceBounds

/-! ## `utils/validator/mthValidator.go`: `InitTrans` -/

/-- Go `strings.ToLower` on ASCII letters; other bytes are kept.  No rune outside ASCII
lowers to one of the letters of `en` or `zh`, so the lookup below agrees with the
library on which locales are found. -/
def ToLower (s : GoString) : GoString :=
  s.map (fun b => if 65 ≤ b.toNat ∧ b.toNat ≤ 90 then (b.toNat + 32).toUInt8 else b)

/-- A translator of the universal-translator library: its locale and the texts added
to it with `Add`. -/
structure Translator where
  locale : GoString
  translations : List (GoString × GoString)
  deriving DecidableEq, Repr

/-- The library's `UniversalTranslator`: translators keyed by lower-cased locale, and the
fallback. -/
structure UniversalTranslator where
  translators : List (GoString × Translator)
  fallback : Option Translator

/-- Library `ut.New(fallback, supportedLocales...)`, on the locale names. -/
def utNew (fallback : GoString) (supportedLocales : List GoString) : UniversalTranslator :=
  let t := supportedLocales.foldl
    (fun (t : UniversalTranslator) v =>
      let tr : Translator := { locale := v, translations := [] }
      let t1 := { t with translators := mapAssign t.translators (ToLower v) tr }
      if fallback = v then { t1 with fallback := some tr } else t1)
    { translators := [], fallback := none }
  match t.fallback with
  | none => { t with fallback := some { locale := fallback, translations := [] } }
  | some _ => t

/-- Library `GetTranslator(locale)`: the translator registered for the lower-cased locale,
or the fallback together with `false` when there is none. -/
def UniversalTranslator.GetTranslator (t : UniversalTranslator) (locale : GoString) :
    Option Translator × Bool :=
  match mapLookup t.translators (ToLower locale) with
  | some tr => (some tr, true)
  | none => (t.fallback, false)

/-- The operations of the validator library that `InitTrans` calls on the engine `v`
and the translator; they are outside the sources and stay parameters.  `V` is the state
of a `*validator.Validate`. -/
structure ValidatorLib (V : Type) where
  RegisterTagNameFunc : (GoString → GoString) → V → V
  RegisterTranslation : GoString → GoString → V → Option Translator → V × Option Translator
  enRegisterDefaultTranslations : V → Option Translator → (V × Option Translator) × Option GoString
  zhRegisterDefaultTranslations : V → Option Translator → (V × Option Translator) × Option GoString

/-- The state `InitTrans` reads and writes: the package-level `trans` (nil before the
first assignment) and the engine returned by `binding.Validator.Engine()`, which is
`some v` exactly when its dynamic type is `*validator.Validate`. -/
structure InitState (V : Type) where
  trans : Option Translator
  engine : Option V

/-- The tag-name function `InitTrans` registers, as a function of the text of the
field's `tip` tag (the source comment speaks of the json tag; the code reads `tip`). -/
def tipTagName (tip : GoString) : GoString :=
  let name := (SplitN2 comma tip).headD []
  if name = ascii "-" then [] else name

/-- The template `{0}不能为空` (UTF-8). -/
def requiredTemplate : GoString :=
  [123, 48, 125, 228, 184, 141, 232, 131, 189, 228, 184, 186, 231, 169, 186]

/-- The template `{0}必须大于等于{1}` (UTF-8). -/
def gteTemplate : GoString :=
  [123, 48, 125, 229, 191, 133, 233, 161, 187, 229, 164, 167, 228, 186, 142, 231, 173, 137,
    228, 186, 142, 123, 49, 125]

/-- The error text of `fmt.Errorf("uni.GetTranslator(%s) failed", locale)`. -/
def getTranslatorFailed (locale : GoString) : GoString :=
  ascii "uni.GetTranslator(" ++ locale ++ ascii ") failed"

/-- Source `InitTrans`: returns the error (`none` is nil) and the new state.  The
package-level `trans` is assigned before `ok` is tested.  When the engine is not a
`*validator.Validate` the named result `err` is returned as it is, nil. -/
def InitTrans {V : Type} (lib : ValidatorLib V) (locale : GoString) (st : InitState V) :
    Option GoString × InitState V :=
  match st.engine with
  | some v =>
    let v := lib.RegisterTagNameFunc tipTagName v
    let uni := utNew (ascii "en") [ascii "zh", ascii "en"]
    let (tr, ok) := uni.GetTranslator locale
    if !ok then
      (some (getTranslatorFailed locale), { trans := tr, engine := some v })
    else
      let (v, tr) := lib.RegisterTranslation (ascii "required") requiredTemplate v tr
      let (v, tr) := lib.RegisterTranslation (ascii "gte") gteTemplate v tr
      let ((v, tr), err) :=
        if locale = ascii "en" then lib.enRegisterDefaultTranslations v tr
        else if locale = ascii "zh" then lib.zhRegisterDefaultTranslations v tr
        else lib.enRegisterDefaultTranslations v tr
      (err, { trans := tr, engine := some v })
  | none => (none, st)

/-- A validator library whose registrations record nothing and report no error; used
for concrete evaluations of `InitTrans`. -/
def idleLib : ValidatorLib Unit where
  RegisterTagNameFunc := fun _ v => v
  RegisterTranslation := fun _ _ v t => (v, t)
  enRegisterDefaultTranslations := fun v t => ((v, t), none)
  zhRegisterDefaultTranslations := fun v t => ((v, t), none)

/-! ## `plugins/server/http/gin/utils/utils.go` -/

/-- Modelled from the spec: the `response` package is not among the sources; its
envelopes are kept as constructors, `validateError msg` for `response.ValidateError(msg)`
and `fail msg` for `response.Fail(msg)`. -/
inductive Envelope where
  | validateError (msg : GoString)
  | fail (msg : GoString)
  deriving DecidableEq, Repr

/-- The part of a `*gin.Context` the helpers use: the parsed query string and posted
form (`url.Values`), the header lookup, and the responses written with `ctx.JSON`. -/
structure Context where
  queryCache : List (GoString × List GoString)
  formCache : List (GoString × List GoString)
  header : GoString → GoString
  written : List (Nat × Envelope)

/-- Framework `ctx.QueryArray(key)`: the values of the key, empty when absent. -/
def Context.QueryArray (ctx : Context) (key : GoString) : List GoString :=
  (mapLookup ctx.queryCache key).getD []

/-- Framework `ctx.Query(key)`: the first value of the key, `""` when there is none. -/
def Context.Query (ctx : Context) (key : GoString) : GoString :=
  (ctx.QueryArray key).headD []

/-- Framework `ctx.PostFormArray(key)`. -/
def Context.PostFormArray (ctx : Context) (key : GoString) : List GoString :=
  (mapLookup ctx.formCache key).getD []

/-- Framework `ctx.PostForm(key)`. -/
def Context.PostForm (ctx : Context) (key : GoString) : GoString :=
  (ctx.PostFormArray key).headD []

/-- Framework `ctx.GetHeader(key)`. -/
def Context.GetHeader (ctx : Context) (key : GoString) : GoString :=
  ctx.header key

/-- Framework `ctx.JSON(code, obj)`: one more response written. -/
def Context.JSON (ctx : Context) (code : Nat) (obj : Envelope) : Context :=
  { ctx with written := ctx.written ++ [(code, obj)] }

/-- The text `不能为空` (UTF-8). -/
def notEmptyText : GoString :=
  [228, 184, 141, 232, 131, 189, 228, 184, 186, 231, 169, 186]

/-- Result of a `Check...` helper: the returned flag, the string behind the pointer `v`
after the call, and the context after the call. -/
structure CheckResult where
  ok : Bool
  ref : GoString
  ctx : Context

/-- Source `CheckParamsWithErrorMsg`; `v` is the string behind the pointer before the
call, overwritten by `*v = str` on every path. -/
def CheckParamsWithErrorMsg (name : GoString) (str : GoString) (v : GoString)
    (errorMsg : GoString) (ctx : Context) : CheckResult :=
  let v := str
  if str.length = 0 then
    if errorMsg.length = 0 then
      { ok := false, ref := v, ctx := ctx.JSON 200 (.validateError (name ++ notEmptyText)) }
    else
      { ok := false, ref := v, ctx := ctx.JSON 200 (.validateError errorMsg) }
  else
    { ok := true, ref := v, ctx := ctx }

/-- Source `CheckQueryParamsWithErrorMsg`. -/
def CheckQueryParamsWithErrorMsg (name : GoString) (v : GoString) (errorMsg : GoString)
    (ctx : Context) : CheckResult :=
  let str := ctx.Query name
  CheckParamsWithErrorMsg name str v errorMsg ctx

/-- Source `CheckHeaderParamsWithErrorMsg`. -/
def CheckHeaderParamsWithErrorMsg (name : GoString) (v : GoString) (errorMsg : GoString)
    (ctx : Context) : CheckResult :=
  let str := ctx.GetHeader name
  CheckParamsWithErrorMsg name str v errorMsg ctx

/-- Source `CheckPostFormParamsWithErrorMsg`. -/
def CheckPostFormParamsWithErrorMsg (name : GoString) (v : GoString) (errorMsg : GoString)
    (ctx : Context) : CheckResult :=
  let str := ctx.PostForm name
  let str := if str.length = 0 then ctx.Query name else str
  CheckParamsWithErrorMsg name str v errorMsg ctx

/-- Source `CheckQueryParams`. -/
def CheckQueryParams (name : GoString) (v : GoString) (ctx : Context) : CheckResult :=
  CheckQueryParamsWithErrorMsg name v [] ctx

/-- Source `CheckPostFormParams`. -/
def CheckPostFormParams (name : GoString) (v : GoString) (ctx : Context) : CheckResult :=
  CheckPostFormParamsWithErrorMsg name v [] ctx

/-- Source `CheckHeaderParams`. -/
def CheckHeaderParams (name : GoString) (v : GoString) (ctx : Context) : CheckResult :=
  CheckHeaderParamsWithErrorMsg name v [] ctx

/-- Source `QueryArray`. -/
def QueryArray (ctx : Context) (name : GoString) : List GoString :=
  let array := ctx.QueryArray name
  if array.length > 0 then
    array.foldl (fun params a => params ++ Split comma a) []
  else []

/-- Source `PostFormArray`. -/
def PostFormArray (ctx : Context) (name : GoString) : List GoString :=
  let array := ctx.PostFormArray name
  if array.length > 0 then
    array.foldl (fun params a => params ++ Split comma a) []
  else []

/-! ## `plugins/server/http/gin/gin_server.go`: the logging middleware -/

/-- Source constant `MAX_PRINT_BODY_LEN`. -/
def MAX_PRINT_BODY_LEN : Nat := 1024

/-- Source `bodyLogWriter`: the bytes passed on to the wrapped response writer and the
capture buffer. -/
structure bodyLogWriter where
  ResponseWriter : GoString
  bodyBuf : GoString

/-- Source `bodyLogWriter.Write`: the chunk goes to the buffer and to the wrapped
writer. -/
def bodyLogWriter.Write (w : bodyLogWriter) (b : GoString) : bodyLogWriter :=
  { ResponseWriter := w.ResponseWriter ++ b, bodyBuf := w.bodyBuf ++ b }

/-- The capture buffer after `ctx.Next()`, when the rest of the handler chain wrote the
chunks `writes` in this order. -/
def capturedBody (writes : List GoString) : GoString :=
  (writes.foldl bodyLogWriter.Write { ResponseWriter := [], bodyBuf := [] }).bodyBuf

/-- The trimming step of `loggingMiddleware`:
`strings.Trim(blw.bodyBuf.String(), "\n")`. -/
def trimmedBody (writes : List GoString) : GoString :=
  Trim (capturedBody writes) newline

/-- Source `loggingMiddleware`: the `strBody` argument of the deferred `requestEnd`
call, when the rest of the handler chain wrote the chunks `writes`. -/
def loggingMiddleware (writes : List GoString) : GoString :=
  let strBody := trimmedBody writes
  if strBody.length > MAX_PRINT_BODY_LEN then strBody.take (MAX_PRINT_BODY_LEN - 1)
  else strBody

/-- Source `requestEnd`: the logged line, for the unescaped request URI, the method, the
body text handed over and the elapsed milliseconds already formatted. -/
def requestEnd (uri method strBody cost : GoString) : GoString :=
  let strBody := if (ascii "/metrics").isPrefixOf uri then ascii "ignore..." else strBody
  newline :: ascii " [GIN] uri:" ++ uri ++ newline :: ascii " [GIN] method:" ++ method ++
    newline :: ascii " [GIN] response:" ++ strBody ++ newline :: ascii " [GIN] cost:" ++
    cost ++ ascii "ms"

/-! ## Auxiliary definitions used in the statements -/

/-- The nested mapping that a single dotted key denotes: one entry per level, the
message at the innermost level. -/
def nestMap : List GoString → GoString → List (GoString × Val)
  | [], _ => []
  | [p], m => [(p, .str m)]
  | p :: q :: ps, m => [(p, .map (nestMap (q :: ps) m))]

/-- Sample translation function for the concrete evaluations: the message is the name of
the failed tag. -/
def tagMessage (fe : FieldError) : GoString := fe.tag

/-- The state after a successful `InitTrans("zh")` from the initial state, with the idle
library. -/
def afterZh : InitState Unit :=
  (InitTrans idleLib (ascii "zh") { trans := none, engine := some () }).2

/-- A request context whose query string is `name=bob&tags=a,b&tags=c`, with no posted
form, no headers and no response written yet. -/
def sampleCtx : Context where
  queryCache := [(ascii "name", [ascii "bob"]), (ascii "tags", [ascii "a,b", ascii "c"])]
  formCache := []
  header := fun _ => []
  written := []

/-! ## Lemmas on the string functions -/

theorem SplitN2_of_not_mem (sep : Byte) (s : GoString) (h : sep ∉ s) :
    SplitN2 sep s = [s] := by
  induction s with
  | nil => rfl
  | cons c cs ih =>
    have hc : c ≠ sep := fun e => h (by simp [e])
    have hcs : sep ∉ cs := fun e => h (by simp [e])
    simp [SplitN2, hc, ih hcs]

theorem SplitN2_append_sep (sep : Byte) (a b : GoString) (h : sep ∉ a) :
    SplitN2 sep (a ++ sep :: b) = [a, b] := by
  induction a with
  | nil => simp [SplitN2]
  | cons c cs ih =>
    have hc : c ≠ sep := fun e => h (by simp [e])
    have hcs : sep ∉ cs := fun e => h (by simp [e])
    simp [SplitN2, hc, ih hcs]

theorem SplitN2_of_mem (sep : Byte) (s : GoString) (h : sep ∈ s) :
    ∃ a b, sep ∉ a ∧ s = a ++ sep :: b ∧ SplitN2 sep s = [a, b] := by
  induction s with
  | nil => simp at h
  | cons c cs ih =>
    by_cases hc : c = sep
    · exact ⟨[], cs, by simp, by simp [hc], by simp [SplitN2, hc]⟩
    · have hcs : sep ∈ cs := by
        rcases List.mem_cons.mp h with e | e
        · exact absurd e.symm hc
        · exact e
      obtain ⟨a, b, ha, hs, hsp⟩ := ih hcs
      refine ⟨c :: a, b, ?_, by simp [hs], by simp [SplitN2, hc, hsp]⟩
      intro hm
      rcases List.mem_cons.mp hm with e | e
      · exact hc e.symm
      · exact ha e

theorem Join_cons (sep : Byte) (p : GoString) (ps : List GoString) (h : ps ≠ []) :
    Join sep (p :: ps) = p ++ sep :: Join sep ps := by
  cases ps with
  | nil => exact absurd rfl h
  | cons q qs => rfl

theorem length_le_Join (ps : List GoString) : ps.length ≤ (Join dot ps).length + 1 := by
  induction ps with
  | nil => simp
  | cons p ps ih =>
    cases ps with
    | nil => simp
    | cons q qs =>
      rw [Join_cons dot p (q :: qs) (by simp)]
      simp only [List.length_cons, List.length_append] at ih ⊢
      omega

theorem Split_ne_nil (sep : Byte) (s : GoString) : Split sep s ≠ [] := by
  cases s with
  | nil => simp [Split]
  | cons c cs =>
    by_cases hc : c = sep
    · simp [Split, hc]
    · cases h : Split sep cs <;> simp [Split, hc, h]

/-- The pieces `Split` returns contain no separator, and joining them with the separator
gives the text back. -/
theorem Join_Split (sep : Byte) (s : GoString) :
    Join sep (Split sep s) = s ∧ ∀ p ∈ Split sep s, sep ∉ p := by
  induction s with
  | nil => simp [Split, Join]
  | cons c cs ih =>
    by_cases hc : c = sep
    · have hsplit : Split sep (c :: cs) = [] :: Split sep cs := by simp [Split, hc]
      rw [hsplit, Join_cons sep [] _ (Split_ne_nil sep cs), ih.1]
      refine ⟨by simp [hc], ?_⟩
      intro p hp
      rcases List.mem_cons.mp hp with rfl | hp
      · simp
      · exact ih.2 p hp
    · cases h : Split sep cs with
      | nil => exact absurd h (Split_ne_nil sep cs)
      | cons x t =>
        have hsplit : Split sep (c :: cs) = (c :: x) :: t := by simp [Split, hc, h]
        rw [h] at ih
        rw [hsplit]
        constructor
        · cases t with
          | nil => simpa [Join] using ih.1
          | cons y ys =>
            rw [Join_cons sep _ _ (by simp)]
            rw [Join_cons sep _ _ (by simp)] at ih
            simpa using ih.1
        · intro p hp
          rcases List.mem_cons.mp hp with rfl | hp
          · intro hm
            rcases List.mem_cons.mp hm with e | e
            · exact hc e.symm
            · exact ih.2 x (by simp) e
          · exact ih.2 p (by simp [hp])

/-! ## Lemmas on the error-message reducer -/

theorem addValueToMapFuel_single_step (fuel : Nat) (k v : GoString) :
    addValueToMapFuel (fuel + 1) [(k, v)] =
      match SplitN2 dot k with
      | f0 :: f1 :: _ =>
        match addValueToMapFuel fuel [(f1, v)] with
        | .error x => .error x
        | .ok returnMap => .ok [(f0, .map returnMap)]
      | _ => .ok [(k, .str v)] := by
  simp only [addValueToMapFuel, List.foldlM_cons, List.foldlM_nil, bind, Except.bind, pure,
    Except.pure]
  rcases h : SplitN2 dot k with _ | ⟨f0, _ | ⟨f1, t⟩⟩
  · simp [mapAssign]
  · simp [mapAssign]
  · cases h2 : addValueToMapFuel fuel [(f1, v)] <;> simp [mapLookup, mapAssign, h2]

theorem addValueToMapFuel_Join (m : GoString) (ps : List GoString) :
    ∀ fuel : Nat, ps ≠ [] → (∀ p ∈ ps, dot ∉ p) → ps.length ≤ fuel →
      addValueToMapFuel fuel [(Join dot ps, m)] = .ok (nestMap ps m) := by
  induction ps with
  | nil => intro fuel h; exact absurd rfl h
  | cons p ps ih =>
    intro fuel _ hdot hlen
    obtain ⟨f, rfl⟩ : ∃ f, fuel = f + 1 := ⟨fuel - 1, by simp at hlen; omega⟩
    have hp : dot ∉ p := hdot p (by simp)
    rw [addValueToMapFuel_single_step]
    cases ps with
    | nil => simp [Join, SplitN2_of_not_mem dot p hp, nestMap]
    | cons q qs =>
      rw [Join_cons dot p (q :: qs) (by simp), SplitN2_append_sep dot p _ hp]
      have := ih f (by simp) (fun x hx => hdot x (by simp [hx])) (by simp at hlen ⊢; omega)
      simp [this, nestMap]

theorem addValueToMapFuel_single_ok (fuel : Nat) :
    ∀ k v : GoString, k.length < fuel → ∃ r, addValueToMapFuel fuel [(k, v)] = .ok r := by
  induction fuel with
  | zero => intro k v h; omega
  | succ f ih =>
    intro k v h
    rw [addValueToMapFuel_single_step]
    by_cases hk : dot ∈ k
    · obtain ⟨a, b, _, hs, hsp⟩ := SplitN2_of_mem dot k hk
      have hb : b.length < f := by
        have : k.length = a.length + (b.length + 1) := by rw [hs]; simp
        omega
      obtain ⟨r, hr⟩ := ih b v hb
      exact ⟨[(a, .map r)], by simp [hsp, hr]⟩
    · exact ⟨[(k, .str v)], by simp [SplitN2_of_not_mem dot k hk]⟩

theorem handleErrMap_nestMap (m : GoString) (ps : List GoString) :
    ∀ pre : GoString, ps ≠ [] → (∀ p ∈ ps, p ≠ []) →
      handleErrMap pre (.map (nestMap ps m)) =
        unionPrefix pre (Join dot (ps.dropLast ++ [m])) := by
  induction ps with
  | nil => intro pre h; exact absurd rfl h
  | cons p ps ih =>
    intro pre _ hne
    cases ps with
    | nil => simp [nestMap, handleErrMap, Join]
    | cons q qs =>
      have hp : p ≠ [] := hne p (by simp)
      have h1 := ih (unionPrefix pre p) (by simp) (fun x hx => hne x (by simp [hx]))
      have h2 : (p :: q :: qs).dropLast ++ [m] = p :: ((q :: qs).dropLast ++ [m]) := by
        simp [List.dropLast]
      rw [h2, Join_cons dot p _ (by simp)]
      simp only [nestMap, handleErrMap]
      rw [h1]
      by_cases hpre : pre = []
      · simp [unionPrefix, hpre, hp]
      · simp [unionPrefix, hpre]

theorem foldlM_ne_error {α β : Type} (e : Fault) (f : β → α → Except Fault β) (l : List α) :
    ∀ init : β, (∀ acc x, x ∈ l → f acc x ≠ .error e) → l.foldlM f init ≠ .error e := by
  induction l with
  | nil => intro init _; simp [pure, Except.pure]
  | cons a l ih =>
    intro init h
    simp only [List.foldlM_cons, bind, Except.bind]
    cases hfa : f init a with
    | error x =>
      intro heq
      exact h init a (by simp) (by rw [hfa]; exact heq)
    | ok b => exact ih b (fun acc x hx => h acc x (by simp [hx]))

theorem foldlM_error_of_mem {α β : Type} (e : Fault) (f : β → α → Except Fault β)
    (bad : α → Prop) (hbad : ∀ acc x, bad x → f acc x = .error e)
    (hgood : ∀ acc x, ¬ bad x → ∃ r, f acc x = .ok r) (l : List α) :
    ∀ init : β, (∃ x ∈ l, bad x) → l.foldlM f init = .error e := by
  induction l with
  | nil => intro init h; simp at h
  | cons a l ih =>
    intro init h
    simp only [List.foldlM_cons, bind, Except.bind]
    by_cases ha : bad a
    · rw [hbad init a ha]
    · obtain ⟨r, hr⟩ := hgood init a ha
      rw [hr]
      obtain ⟨x, hx, hxb⟩ := h
      rcases List.mem_cons.mp hx with rfl | hx
      · exact absurd hxb ha
      · exact ih r ⟨x, hx, hxb⟩

theorem key_length_le_sum (fields : List (GoString × GoString)) :
    ∀ kv ∈ fields, kv.1.length ≤ (fields.map (fun kv => kv.1.length)).sum := by
  induction fields with
  | nil => intro kv h; simp at h
  | cons a l ih =>
    intro kv h
    rcases List.mem_cons.mp h with rfl | h
    · simp
    · have := ih kv h
      simp only [List.map_cons, List.sum_cons]
      omega

/-- The fuel `addValueToMap` supplies is always enough. -/
theorem addValueToMap_ne_outOfFuel (fields : List (GoString × GoString)) :
    addValueToMap fields ≠ .error .outOfFuel := by
  unfold addValueToMap
  simp only [addValueToMapFuel]
  apply foldlM_ne_error
  intro acc fe hfe
  have hlen := key_length_le_sum fields fe hfe
  by_cases hk : dot ∈ fe.1
  · obtain ⟨a, b, _, hs, hsp⟩ := SplitN2_of_mem dot fe.1 hk
    have hb : b.length < (fields.map (fun kv => kv.1.length)).sum := by
      have : fe.1.length = a.length + (b.length + 1) := by rw [hs]; simp
      omega
    obtain ⟨r, hr⟩ := addValueToMapFuel_single_ok _ b fe.2 hb
    simp only [hsp, hr]
    cases mapLookup acc a with
    | none => simp
    | some v => cases v <;> simp
  · simp [SplitN2_of_not_mem dot fe.1 hk]

theorem addValueToMap_single (k v : GoString) : ∃ r, addValueToMap [(k, v)] = .ok r := by
  unfold addValueToMap
  exact addValueToMapFuel_single_ok _ k v (by simp)

theorem removeTopStruct_single (k v : GoString) :
    removeTopStruct [(k, v)] =
      match (SplitN2 dot k)[1]? with
      | some f1 => addValueToMap [(f1, v)]
      | none => .error .indexOutOfRange := by
  simp only [removeTopStruct, List.foldlM_cons, List.foldlM_nil, bind, Except.bind, pure,
    Except.pure]
  cases (SplitN2 dot k)[1]? <;> simp [mapAssign]

theorem ErrResp_cons (translate : FieldError → GoString) (e : FieldError)
    (rest : List FieldError) :
    ErrResp translate (.validationErrors (e :: rest)) =
      match removeTopStruct [(e.ns, translate e)] with
      | .error x => .error x
      | .ok errMap =>
        if errMap.length > 0 then .ok (handleErrMap [] (.map errMap)) else .ok [] := by
  simp [ErrResp, Translate, mapAssign]

/-! ## Lemmas on trimming -/

theorem dropWhile_eq_self_of_not_mem (c : Byte) (s : GoString) (h : c ∉ s) :
    s.dropWhile (fun b => b == c) = s := by
  cases s with
  | nil => rfl
  | cons x xs =>
    have hx : x ≠ c := fun e => h (by simp [e])
    simp [List.dropWhile_cons, hx]

theorem rdropWhile_eq_self_of_not_mem (c : Byte) (s : GoString) (h : c ∉ s) :
    s.rdropWhile (fun b => b == c) = s := by
  unfold List.rdropWhile
  rw [dropWhile_eq_self_of_not_mem c s.reverse (by simpa using h), List.reverse_reverse]

theorem Trim_of_not_mem (c : Byte) (s : GoString) (h : c ∉ s) : Trim s c = s := by
  unfold Trim
  rw [rdropWhile_eq_self_of_not_mem c s h, dropWhile_eq_self_of_not_mem c s h]

theorem Trim_concat (c : Byte) (s : GoString) : Trim (s ++ [c]) c = Trim s c := by
  unfold Trim
  rw [List.rdropWhile_concat]
  simp

theorem Trim_cons (c : Byte) (s : GoString) : Trim (c :: s) c = Trim s c := by
  unfold Trim
  induction s using List.reverseRecOn with
  | nil => simp [List.rdropWhile, List.dropWhile]
  | append_singleton l a ih =>
    rw [← List.cons_append, List.rdropWhile_concat, List.rdropWhile_concat]
    by_cases ha : a = c
    · simp [ha] at ih ⊢
      exact ih
    · simp [ha, List.dropWhile_cons]

theorem all_eq_replicate (c : Byte) (l : GoString) (h : ∀ x ∈ l, x = c) :
    l = List.replicate l.length c :=
  List.eq_replicate_iff.mpr ⟨rfl, h⟩

theorem rdropWhile_append_rtakeWhile (p : Byte → Bool) (b : GoString) :
    b.rdropWhile p ++ b.rtakeWhile p = b := by
  rw [List.rdropWhile, List.rtakeWhile, ← List.reverse_append,
    List.takeWhile_append_dropWhile, List.reverse_reverse]

theorem not_mem_replicate_of_ne (n : Nat) (a c : Byte) (h : c ≠ a) :
    c ∉ List.replicate n a := fun hm => h (List.eq_of_mem_replicate hm)

theorem loggingMiddleware_of_le (writes : List GoString)
    (h : (trimmedBody writes).length ≤ 1024) :
    loggingMiddleware writes = trimmedBody writes := by
  unfold loggingMiddleware
  simp only [MAX_PRINT_BODY_LEN]
  rw [if_neg (by omega)]

theorem capturedBody_single (b : GoString) : capturedBody [b] = b := by
  simp [capturedBody, bodyLogWriter.Write]

theorem capturedBody_foldl (writes : List GoString) (w : bodyLogWriter) :
    (writes.foldl bodyLogWriter.Write w).bodyBuf = w.bodyBuf ++ writes.flatten := by
  induction writes generalizing w with
  | nil => simp
  | cons a l ih => simp [ih, bodyLogWriter.Write]

/-- The capture buffer holds the written chunks, concatenated in order. -/
theorem capturedBody_eq_flatten (writes : List GoString) :
    capturedBody writes = writes.flatten := by
  simp [capturedBody, capturedBody_foldl]

/-! ## Claims on `ErrResp` -/

/-- C1: on a validation error set with at least one field error, `ErrResp` depends only
on the first error: whatever the tails `r1` and `r2`, `ErrResp (e :: r1)`,
`ErrResp (e :: r2)` and `ErrResp [e]` coincide (as results or as the same fault). -/
theorem ErrResp_first_error_only (translate : FieldError → GoString) (e : FieldError)
    (r1 r2 : List FieldError) :
    ErrResp translate (.validationErrors (e :: r1)) =
        ErrResp translate (.validationErrors (e :: r2)) ∧
      ErrResp translate (.validationErrors (e :: r2)) =
        ErrResp translate (.validationErrors [e]) := by
  simp [ErrResp_cons]

/-- C2, as stated, fails: for the path `User.Addr.City` with message `required` the
result is `Addr.required`, not `Addr.City.required`. -/
theorem ErrResp_not_full_path :
    ErrResp tagMessage (.validationErrors
        [⟨ascii "User.Addr.City", ascii "City", ascii "required", []⟩]) =
        .ok (ascii "Addr.required") ∧
      ErrResp tagMessage (.validationErrors
        [⟨ascii "User.Addr.City", ascii "City", ascii "required", []⟩]) ≠
        .ok (Join dot [ascii "Addr", ascii "City", ascii "required"]) := by
  decide

/-- C2 (amended): when the first error has field path `S.p1.p2...pn` (`n ≥ 1`, the
segments non-empty and free of dots, `S` free of dots) and translated message `m`,
`ErrResp` returns `p1.p2...p(n-1).m`: the struct name is stripped, and the flattening
joins every segment but the last to the message (for `n = 1` the result is `m`). -/
theorem ErrResp_path_without_last_segment (translate : FieldError → GoString)
    (e : FieldError) (rest : List FieldError) (S : GoString) (ps : List GoString)
    (hS : dot ∉ S) (hne : ps ≠ []) (hps : ∀ p ∈ ps, dot ∉ p ∧ p ≠ [])
    (hns : e.ns = Join dot (S :: ps)) :
    ErrResp translate (.validationErrors (e :: rest)) =
      .ok (Join dot (ps.dropLast ++ [translate e])) := by
  rw [ErrResp_cons, removeTopStruct_single, hns, Join_cons dot S ps hne,
    SplitN2_append_sep dot S _ hS]
  have hfuel : ps.length ≤ ([(Join dot ps, translate e)].map (fun kv => kv.1.length)).sum + 1 := by
    have := length_le_Join ps
    simpa using this
  have hmap : addValueToMap [(Join dot ps, translate e)] = .ok (nestMap ps (translate e)) := by
    unfold addValueToMap
    exact addValueToMapFuel_Join (translate e) ps _ hne (fun p hp => (hps p hp).1) hfuel
  have hlen : (nestMap ps (translate e)).length > 0 := by
    cases ps with
    | nil => exact absurd rfl hne
    | cons p qs => cases qs <;> simp [nestMap]
  have hflat := handleErrMap_nestMap (translate e) ps [] hne (fun p hp => (hps p hp).2)
  simp only [List.getElem?_cons_succ, List.getElem?_cons_zero, hmap, hlen, if_true, hflat]
  simp [unionPrefix]

/-- C2 (amended) at the path `User.Addr.City` with message `required`, followed by a
second error: the hypotheses hold and the result is `Addr.required`. -/
theorem ErrResp_path_without_last_segment_witness :
    (dot ∉ ascii "User" ∧ [ascii "Addr", ascii "City"] ≠ [] ∧
      (∀ p ∈ [ascii "Addr", ascii "City"], dot ∉ p ∧ p ≠ []) ∧
      (FieldError.mk (ascii "User.Addr.City") (ascii "City") (ascii "required") []).ns =
        Join dot [ascii "User", ascii "Addr", ascii "City"]) ∧
    ErrResp tagMessage (.validationErrors
        [⟨ascii "User.Addr.City", ascii "City", ascii "required", []⟩,
         ⟨ascii "User.Age", ascii "Age", ascii "gte", ascii "18"⟩]) =
      .ok (Join dot ([ascii "Addr", ascii "City"].dropLast ++
        [tagMessage ⟨ascii "User.Addr.City", ascii "City", ascii "required", []⟩])) :=
  ⟨by decide,
   ErrResp_path_without_last_segment tagMessage
    ⟨ascii "User.Addr.City", ascii "City", ascii "required", []⟩
    [⟨ascii "User.Age", ascii "Age", ascii "gte", ascii "18"⟩]
    (ascii "User") [ascii "Addr", ascii "City"]
    (by decide) (by decide) (by decide) (by decide)⟩

/-- C3, as stated, fails: on an error of another type whose text is `EOF`, `ErrResp`
returns `EOF`, not the empty string. -/
theorem ErrResp_other_error_not_empty :
    ErrResp tagMessage (.other (ascii "EOF")) = .ok (ascii "EOF") ∧
      ErrResp tagMessage (.other (ascii "EOF")) ≠ .ok [] := by
  decide

/-- C3 (amended): for every non-nil error that is not a validation error set, `ErrResp`
returns the text of the error itself (`err.Error()`). -/
theorem ErrResp_other_error (translate : FieldError → GoString) (msg : GoString) :
    ErrResp translate (.other msg) = .ok msg := rfl

/-- Whatever the number of keys, a key with no dot makes `removeTopStruct` fault with an
index out of range. -/
theorem removeTopStruct_error_of_no_dot (fields : List (GoString × GoString))
    (h : ∃ kv ∈ fields, dot ∉ kv.1) :
    removeTopStruct fields = .error .indexOutOfRange := by
  have hfold : fields.foldlM (fun lowerMap (fe : GoString × GoString) =>
      match (SplitN2 dot fe.1)[1]? with
      | some f1 => Except.ok (mapAssign lowerMap f1 fe.2)
      | none => Except.error Fault.indexOutOfRange) [] = .error .indexOutOfRange := by
    apply foldlM_error_of_mem Fault.indexOutOfRange _ (fun kv => dot ∉ kv.1) _ _ fields [] h
    · intro acc x hx
      simp [SplitN2_of_not_mem dot x.1 hx]
    · intro acc x hx
      obtain ⟨a, b, _, _, hsp⟩ := SplitN2_of_mem dot x.1 (not_not.mp hx)
      exact ⟨mapAssign acc b x.2, by simp [hsp]⟩
  simp only [removeTopStruct, hfold]

theorem removeTopStruct_single_ok_iff (k v : GoString) :
    (∃ r, removeTopStruct [(k, v)] = .ok r) ↔ dot ∈ k := by
  rw [removeTopStruct_single]
  constructor
  · intro h
    by_contra hk
    simp [SplitN2_of_not_mem dot k hk] at h
  · intro hk
    obtain ⟨a, b, _, _, hsp⟩ := SplitN2_of_mem dot k hk
    simpa [hsp] using addValueToMap_single b v

theorem Translate_take_one (translate : FieldError → GoString) (e : FieldError)
    (rest : List FieldError) :
    Translate translate ((e :: rest).take 1) = [(e.ns, translate e)] := by
  simp [Translate, mapAssign]

/-- C10: `removeTopStruct` on the map it is given (the one-entry map `ErrResp` builds from
`errs[0:1]`, and any one-entry map) completes without a runtime fault if and only if the
field-path key contains at least one `.`; for a key with no dot the fault is the index
out of range of `fieldArr[1]`.  Hence `ErrResp` on a non-empty validation error set
completes without a fault if and only if the first error's path contains a `.`, and
otherwise faults with that index out of range. -/
theorem removeTopStruct_fault_iff_no_dot :
    (∀ k v : GoString, (∃ r, removeTopStruct [(k, v)] = .ok r) ↔ dot ∈ k) ∧
      (∀ k v : GoString, dot ∉ k → removeTopStruct [(k, v)] = .error .indexOutOfRange) ∧
      (∀ (translate : FieldError → GoString) (e : FieldError) (rest : List FieldError),
        ((∃ r, removeTopStruct (Translate translate ((e :: rest).take 1)) = .ok r) ↔
          dot ∈ e.ns) ∧
        ((∃ s, ErrResp translate (.validationErrors (e :: rest)) = .ok s) ↔ dot ∈ e.ns) ∧
        (dot ∉ e.ns →
          ErrResp translate (.validationErrors (e :: rest)) = .error .indexOutOfRange)) := by
  refine ⟨removeTopStruct_single_ok_iff, ?_, ?_⟩
  · intro k v hk
    exact removeTopStruct_error_of_no_dot [(k, v)] ⟨(k, v), by simp, hk⟩
  · intro translate e rest
    refine ⟨?_, ?_, ?_⟩
    · rw [Translate_take_one]
      exact removeTopStruct_single_ok_iff e.ns (translate e)
    · rw [ErrResp_cons, ← removeTopStruct_single_ok_iff e.ns (translate e)]
      constructor
      · rintro ⟨s, hs⟩
        cases hr : removeTopStruct [(e.ns, translate e)] with
        | error x => simp [hr] at hs
        | ok r => exact ⟨r, rfl⟩
      · rintro ⟨r, hr⟩
        rw [hr]
        by_cases hl : r.length > 0
        · exact ⟨handleErrMap [] (.map r), by simp only [hl, if_true]⟩
        · exact ⟨[], by simp only [hl, if_false]⟩
    · intro hk
      rw [ErrResp_cons,
        removeTopStruct_error_of_no_dot [(e.ns, translate e)] ⟨(e.ns, translate e), by simp, hk⟩]

/-- C10 at concrete inputs: the key `User` faults with an index out of range, the key
`User.Name` does not, and `ErrResp` returns a result on an error with path `User.Name`
and faults on one with path `User`. -/
theorem removeTopStruct_fault_iff_no_dot_witness :
    removeTopStruct [(ascii "User", ascii "m")] = .error .indexOutOfRange ∧
      (∃ r, removeTopStruct [(ascii "User.Name", ascii "x")] = .ok r) ∧
      (∃ s, ErrResp tagMessage (.validationErrors
        [⟨ascii "User.Name", ascii "Name", ascii "required", []⟩]) = .ok s) ∧
      ErrResp tagMessage (.validationErrors [⟨ascii "User", [], ascii "required", []⟩]) =
        .error .indexOutOfRange :=
  ⟨removeTopStruct_fault_iff_no_dot.2.1 (ascii "User") (ascii "m") (by decide),
   (removeTopStruct_fault_iff_no_dot.1 (ascii "User.Name") (ascii "x")).mpr (by decide),
   ((removeTopStruct_fault_iff_no_dot.2.2 tagMessage
      ⟨ascii "User.Name", ascii "Name", ascii "required", []⟩ []).2.1).mpr (by decide),
   (removeTopStruct_fault_iff_no_dot.2.2 tagMessage
      ⟨ascii "User", [], ascii "required", []⟩ []).2.2 (by decide)⟩

/-! ## Claims on `InitTrans` -/

/-- C4, as stated, fails: after `InitTrans("zh")` has configured the `zh` translator,
`InitTrans("fr")` returns an error and the package-level translator is no longer the one
configured before: it is the library's fallback `en` translator. -/
theorem InitTrans_fr_overwrites_translator :
    afterZh.trans = some { locale := ascii "zh", translations := [] } ∧
      (InitTrans idleLib (ascii "fr") afterZh).1 ≠ none ∧
      (InitTrans idleLib (ascii "fr") afterZh).2.trans ≠ afterZh.trans ∧
      (InitTrans idleLib (ascii "fr") afterZh).2.trans =
        some { locale := ascii "en", translations := [] } := by
  decide

/-- C4 (amended): for every locale that is not supported (its lower-cased form is neither
`en` nor `zh`), when the engine is a `*validator.Validate`, `InitTrans` returns the
non-nil error `uni.GetTranslator(<locale>) failed` and sets the package-level translator
to the fallback `en` translator of the universal translator it has just built. -/
theorem InitTrans_unsupported_locale {V : Type} (lib : ValidatorLib V) (locale : GoString)
    (st : InitState V) (v : V) (hv : st.engine = some v)
    (hen : ToLower locale ≠ ascii "en") (hzh : ToLower locale ≠ ascii "zh") :
    (InitTrans lib locale st).1 = some (getTranslatorFailed locale) ∧
      (InitTrans lib locale st).2.trans = some { locale := ascii "en", translations := [] } := by
  have hzh2 : ¬ ascii "zh" = ToLower locale := fun h => hzh h.symm
  have hen2 : ¬ ascii "en" = ToLower locale := fun h => hen h.symm
  have hz : ToLower (ascii "zh") = ascii "zh" := by decide
  have he : ToLower (ascii "en") = ascii "en" := by decide
  have hg : (utNew (ascii "en") [ascii "zh", ascii "en"]).GetTranslator locale =
      (some { locale := ascii "en", translations := [] }, false) := by
    have hne : ascii "en" ≠ ascii "zh" := by decide
    simp [UniversalTranslator.GetTranslator, utNew, mapAssign, mapLookup, hz, he, hzh2, hen2,
      hne]
  simp [InitTrans, hv, hg]

/-- C4 (amended) at the locale `fr`, after `InitTrans("zh")`. -/
theorem InitTrans_unsupported_locale_witness :
    (afterZh.engine = some () ∧ ToLower (ascii "fr") ≠ ascii "en" ∧
      ToLower (ascii "fr") ≠ ascii "zh") ∧
    ((InitTrans idleLib (ascii "fr") afterZh).1 = some (getTranslatorFailed (ascii "fr")) ∧
      (InitTrans idleLib (ascii "fr") afterZh).2.trans =
        some { locale := ascii "en", translations := [] }) :=
  ⟨by decide,
   InitTrans_unsupported_locale idleLib (ascii "fr") afterZh () (by decide) (by decide)
    (by decide)⟩

/-- C5, as stated, fails: with an engine that is not a `*validator.Validate`,
`InitTrans("en")` returns the nil error. -/
theorem InitTrans_other_engine_nil_error :
    (InitTrans idleLib (ascii "en") { trans := none, engine := none }).1 = none := by
  decide

/-- C5 (amended): for every locale, when the engine is not a `*validator.Validate`,
`InitTrans` returns the nil error and does nothing: the package-level translator and the
engine are left as they were. -/
theorem InitTrans_other_engine {V : Type} (lib : ValidatorLib V) (locale : GoString)
    (tr : Option Translator) :
    InitTrans lib locale { trans := tr, engine := none } =
      (none, { trans := tr, engine := none }) := rfl

/-! ## Claims on the parameter helpers -/

/-- C6: `CheckQueryParams(name, ref, ctx)` returns false and writes exactly one
validation-failure envelope, with the message `name + "不能为空"`, if and only if the
query string has no value for `name` or its (first) value is empty; otherwise it returns
true, writes no response, and `*ref` is the query value. -/
theorem CheckQueryParams_false_iff_missing_or_empty (name v : GoString) (ctx : Context) :
    (((CheckQueryParams name v ctx).ok = false ∧
        (CheckQueryParams name v ctx).ctx.written =
          ctx.written ++ [(200, Envelope.validateError (name ++ notEmptyText))]) ↔
      (ctx.QueryArray name = [] ∨ (ctx.QueryArray name).head? = some [])) ∧
    (¬ (ctx.QueryArray name = [] ∨ (ctx.QueryArray name).head? = some []) →
      (CheckQueryParams name v ctx).ok = true ∧
      (CheckQueryParams name v ctx).ctx.written = ctx.written ∧
      (ctx.QueryArray name).head? = some (CheckQueryParams name v ctx).ref) := by
  simp only [CheckQueryParams, CheckQueryParamsWithErrorMsg, CheckParamsWithErrorMsg,
    Context.Query, Context.JSON]
  rcases h : ctx.QueryArray name with _ | ⟨a, rest⟩
  · simp
  · cases a with
    | nil => simp
    | cons c cs => simp

/-- C6 at the query string `name=bob&...`: the value is present and non-empty, so the
helper returns true, writes nothing and stores `bob` behind the pointer. -/
theorem CheckQueryParams_false_iff_missing_or_empty_witness :
    (CheckQueryParams (ascii "name") (ascii "old") sampleCtx).ok = true ∧
      (CheckQueryParams (ascii "name") (ascii "old") sampleCtx).ctx.written =
        sampleCtx.written ∧
      (sampleCtx.QueryArray (ascii "name")).head? =
        some (CheckQueryParams (ascii "name") (ascii "old") sampleCtx).ref :=
  (CheckQueryParams_false_iff_missing_or_empty (ascii "name") (ascii "old") sampleCtx).2
    (by decide)

/-- C7: `QueryArray` returns the concatenation, in the order of the raw values, of each
value split on `,`; the values `["a,b", "c"]` give `["a","b","c"]`; `PostFormArray` is
the same function of the posted-form values. -/
theorem QueryArray_eq_flatMap_Split :
    (∀ (ctx : Context) (name : GoString),
        QueryArray ctx name = (ctx.QueryArray name).flatMap (Split comma)) ∧
      (∀ (ctx : Context) (name : GoString),
        PostFormArray ctx name = (ctx.PostFormArray name).flatMap (Split comma)) ∧
      (∀ (ctx : Context) (name : GoString),
        ctx.QueryArray name = [ascii "a,b", ascii "c"] →
          QueryArray ctx name = [ascii "a", ascii "b", ascii "c"]) := by
  have key : ∀ (array : List GoString) (acc : List GoString),
      array.foldl (fun params a => params ++ Split comma a) acc =
        acc ++ array.flatMap (Split comma) := by
    intro array
    induction array with
    | nil => intro acc; simp
    | cons a l ih => intro acc; simp [ih, List.flatMap_cons]
  have hq : ∀ (ctx : Context) (name : GoString),
      QueryArray ctx name = (ctx.QueryArray name).flatMap (Split comma) := by
    intro ctx name
    simp only [QueryArray]
    split
    · simp [key]
    · rename_i h
      have : ctx.QueryArray name = [] := by
        cases hx : ctx.QueryArray name with
        | nil => rfl
        | cons a l => simp [hx] at h
      simp [this]
  refine ⟨hq, ?_, ?_⟩
  · intro ctx name
    simp only [PostFormArray]
    split
    · simp [key]
    · rename_i h
      have : ctx.PostFormArray name = [] := by
        cases hx : ctx.PostFormArray name with
        | nil => rfl
        | cons a l => simp [hx] at h
      simp [this]
  · intro ctx name h
    rw [hq, h]
    decide

/-- C7 at the query string `...&tags=a,b&tags=c`. -/
theorem QueryArray_eq_flatMap_Split_witness :
    QueryArray sampleCtx (ascii "tags") = [ascii "a", ascii "b", ascii "c"] :=
  QueryArray_eq_flatMap_Split.2.2 sampleCtx (ascii "tags") (by decide)

/-! ## Claims on the logging middleware -/

/-- C8, as stated, fails: a captured body of 1024 letters `a` followed by one newline is
longer than 1024 units, but its trimmed form is not, so the body handed to `requestEnd`
is the whole trimmed body (1024 units) and not its first 1023 units. -/
theorem loggingMiddleware_long_body_not_truncated :
    (capturedBody [List.replicate 1024 97 ++ [newline]]).length > 1024 ∧
      loggingMiddleware [List.replicate 1024 97 ++ [newline]] ≠
        (trimmedBody [List.replicate 1024 97 ++ [newline]]).take 1023 := by
  have hmem : newline ∉ List.replicate 1024 (97 : Byte) :=
    not_mem_replicate_of_ne 1024 97 newline (by decide)
  have htrim : trimmedBody [List.replicate 1024 97 ++ [newline]] = List.replicate 1024 97 := by
    rw [trimmedBody, capturedBody_single, Trim_concat, Trim_of_not_mem _ _ hmem]
  constructor
  · rw [capturedBody_single, List.length_append, List.length_replicate, List.length_singleton]
    omega
  · intro h
    rw [loggingMiddleware_of_le _ (by rw [htrim, List.length_replicate]), htrim] at h
    have hlen := congrArg List.length h
    rw [List.length_take, List.length_replicate] at hlen
    omega

/-- C8 (amended): whenever the trimmed body is longer than 1024 units, the body text that
`loggingMiddleware` hands to `requestEnd` is exactly the first 1023 units of the trimmed
body. -/
theorem loggingMiddleware_truncates_trimmed (writes : List GoString)
    (h : (trimmedBody writes).length > 1024) :
    loggingMiddleware writes = (trimmedBody writes).take 1023 := by
  unfold loggingMiddleware
  simp only [MAX_PRINT_BODY_LEN]
  rw [if_pos h]

/-- C8 (amended) at a captured body of 1025 letters `a`. -/
theorem loggingMiddleware_truncates_trimmed_witness :
    (trimmedBody [List.replicate 1025 97]).length > 1024 ∧
      loggingMiddleware [List.replicate 1025 97] =
        (trimmedBody [List.replicate 1025 97]).take 1023 :=
  have hlen : (trimmedBody [List.replicate 1025 97]).length > 1024 := by
    rw [trimmedBody, capturedBody_single,
      Trim_of_not_mem _ _ (not_mem_replicate_of_ne 1025 97 newline (by decide)),
      List.length_replicate]
    omega
  ⟨hlen, loggingMiddleware_truncates_trimmed [List.replicate 1025 97] hlen⟩

/-- C9, as stated, fails: on the captured body `"\nok\n"` the trimming step gives `"ok"`;
the leading newline is removed too, so the result is not the body with only its
trailing newlines removed (`"\nok"`). -/
theorem trimmedBody_removes_leading_newline :
    trimmedBody [newline :: ascii "ok" ++ [newline]] = ascii "ok" ∧
      trimmedBody [newline :: ascii "ok" ++ [newline]] ≠
        (newline :: ascii "ok" ++ [newline]).rdropWhile (fun b => b == newline) := by
  decide

/-- C9 (amended): the trimming step of `loggingMiddleware` removes newlines at both
ends: the captured body is some newlines, then the trimmed body, then some newlines, and
the trimmed body neither starts nor ends with a newline (every other character is
kept). -/
theorem trimmedBody_strips_both_ends (writes : List GoString) :
    (∃ k j : Nat, capturedBody writes =
        List.replicate k newline ++ trimmedBody writes ++ List.replicate j newline) ∧
      (trimmedBody writes).head? ≠ some newline ∧
      (trimmedBody writes).getLast? ≠ some newline := by
  unfold trimmedBody Trim
  generalize capturedBody writes = b
  set p : Byte → Bool := fun x => x == newline with hp
  set r := b.rdropWhile p with hr
  have hb : b = r ++ b.rtakeWhile p := (rdropWhile_append_rtakeWhile p b).symm
  have hr2 : r = r.takeWhile p ++ r.dropWhile p := (List.takeWhile_append_dropWhile p r).symm
  have h1 : r.takeWhile p = List.replicate (r.takeWhile p).length newline :=
    all_eq_replicate newline _ (fun x hx => by
      have := List.mem_takeWhile_imp hx
      simpa [hp] using this)
  have h2 : b.rtakeWhile p = List.replicate (b.rtakeWhile p).length newline :=
    all_eq_replicate newline _ (fun x hx => by
      have hx2 : x ∈ (b.reverse.takeWhile p) := by
        simpa [List.rtakeWhile] using hx
      have := List.mem_takeWhile_imp hx2
      simpa [hp] using this)
  refine ⟨⟨(r.takeWhile p).length, (b.rtakeWhile p).length, ?_⟩, ?_, ?_⟩
  · rw [← h1, ← hr2, ← h2]
    exact hb
  · intro h
    have := List.head?_dropWhile_not p r
    rw [h] at this
    simp [hp] at this
  · intro h
    have hne : r.dropWhile p ≠ [] := by
      intro e
      rw [e] at h
      simp at h
    have hlast : r.getLast? = some newline := by
      rw [hr2, List.getLast?_append_of_ne_nil _ hne]
      exact h
    have hrne : r ≠ [] := by
      intro e
      rw [e] at hlast
      simp at hlast
    have hnot := List.rdropWhile_last_not p b hrne
    rw [List.getLast?_eq_getLast _ hrne] at hlast
    have heq : r.getLast hrne = newline := by simpa using hlast
    rw [heq] at hnot
    simp [hp] at hnot

end Gcloud
